import Mathlib

/-!
Verification of the metrics aggregator in `src/app/api/heartbeat/route.ts`
(`computeHeartbeat`, `percentile75`, `ensureRow` and the ingestion join in
`GET`).

Modelling choices:
* JavaScript numbers are modelled as exact rationals (`ℚ`).  Every value that
  reaches the aggregator is a finite CSV-derived number, and each arithmetic
  step of the aggregator (`Math.floor(0.75 * (n - 1))` on an integer `n`,
  sums of the fixed weight table, divisions by the percentile denominators)
  is considered at its exact mathematical value.
* `Math.floor(0.75 * (sorted.length - 1))` is modelled as the natural-number
  division `3 * (n - 1) / 4`; for array lengths `0.75 * (n - 1)` is exact in
  the source as well, so the floor agrees with the integer division.
* `a.date.localeCompare(b.date)` is modelled as the code-point lexicographic
  comparison of the date strings: on the ASCII `YYYY-MM-DD[ HH:MM:SS]` date
  keys the locale collation and code-point order coincide.  JavaScript's
  `Array.prototype.sort` is stable, and a stable sort with a total preorder
  comparator is unique, so we model it by stable insertion sort.
* `str.replace(" ", "T")` replaces only the first occurrence of a space;
  it is modelled by the recursive `replaceFirstSpace` on the character list.
* The JS `Map<string, MetricsRow>` of the ingestion join is modelled as an
  association list in insertion order (`MapRows`); `Map.get` finds the unique
  binding of a key and `Map.set` appends a new binding at the end.
-/

namespace Heartbeat

/-- The space character, written via its code point. -/
def spaceChar : Char := Char.ofNat 32

/-- `MetricsRow` from `route.ts`: a date key plus seven optional numeric
fields; a field is `none` when no source supplied it. -/
structure MetricsRow where
  date : String
  orders : Option ℚ := none
  shipping_labels : Option ℚ := none
  total_packers : Option ℚ := none
  total_warehouses_packers : Option ℚ := none
  total_pickers : Option ℚ := none
  total_warehouses_pickers : Option ℚ := none
  active_countries : Option ℚ := none
deriving DecidableEq, Repr

/-- The result of the defaulting spread
`{ ...r, orders: r.orders ?? 0, ... }`: all seven fields present. -/
structure SafeRow where
  date : String
  orders : ℚ
  shipping_labels : ℚ
  total_packers : ℚ
  total_warehouses_packers : ℚ
  total_pickers : ℚ
  total_warehouses_pickers : ℚ
  active_countries : ℚ
deriving DecidableEq, Repr

/-- The `metrics` payload of a `HeartbeatPoint`. -/
structure Metrics where
  orders : ℚ
  shipping_labels : ℚ
  total_packers : ℚ
  total_pickers : ℚ
  total_warehouses_packers : ℚ
  total_warehouses_pickers : ℚ
  active_countries : ℚ
deriving DecidableEq, Repr

/-- `HeartbeatPoint` from `route.ts`. -/
structure HeartbeatPoint where
  timestamp : String
  intensity : ℚ
  metrics : Metrics
deriving DecidableEq, Repr

/-- The seven metric field names (`metricsKeys` in the source). -/
inductive MetricKey where
  | orders
  | shipping_labels
  | total_packers
  | total_pickers
  | total_warehouses_packers
  | total_warehouses_pickers
  | active_countries
deriving DecidableEq, Repr

/-- `metricsKeys` in its source order. -/
def metricsKeys : List MetricKey :=
  [.orders, .shipping_labels, .total_packers, .total_pickers,
   .total_warehouses_packers, .total_warehouses_pickers, .active_countries]

/-- The fixed weight table `weights`. -/
def weight : MetricKey → ℚ
  | .orders => 1.0
  | .shipping_labels => 1.0
  | .total_packers => 0.7
  | .total_pickers => 0.7
  | .total_warehouses_packers => 0.4
  | .total_warehouses_pickers => 0.4
  | .active_countries => 0.5

/-- `Object.values(weights).reduce((a, b) => a + b, 0)`; `Object.values`
lists the weights in insertion order, which is the `metricsKeys` order. -/
def totalWeight : ℚ := (metricsKeys.map weight).foldl (· + ·) 0

/-- Field projection `r[key]` on a defaulted row. -/
def value : MetricKey → SafeRow → ℚ
  | .orders, r => r.orders
  | .shipping_labels, r => r.shipping_labels
  | .total_packers, r => r.total_packers
  | .total_pickers, r => r.total_pickers
  | .total_warehouses_packers, r => r.total_warehouses_packers
  | .total_warehouses_pickers, r => r.total_warehouses_pickers
  | .active_countries, r => r.active_countries

/-- Field projection `r[key]` on a raw row (possibly absent). -/
def optValue : MetricKey → MetricsRow → Option ℚ
  | .orders, r => r.orders
  | .shipping_labels, r => r.shipping_labels
  | .total_packers, r => r.total_packers
  | .total_pickers, r => r.total_pickers
  | .total_warehouses_packers, r => r.total_warehouses_packers
  | .total_warehouses_pickers, r => r.total_warehouses_pickers
  | .active_countries, r => r.active_countries

/-- The defaulting spread `{ ...r, orders: r.orders ?? 0, ... }` applied to
one row (the body of the `rows.map` building `safeRows`). -/
def safeRow (r : MetricsRow) : SafeRow :=
  { date := r.date
    orders := r.orders.getD 0
    shipping_labels := r.shipping_labels.getD 0
    total_packers := r.total_packers.getD 0
    total_warehouses_packers := r.total_warehouses_packers.getD 0
    total_pickers := r.total_pickers.getD 0
    total_warehouses_pickers := r.total_warehouses_pickers.getD 0
    active_countries := r.active_countries.getD 0 }

/-- `percentile75` from `route.ts`:
empty array gives `1`; otherwise sort ascending (`(a, b) => a - b`), take the
entry at `Math.floor(0.75 * (length - 1))`, and `|| 1` turns a zero into `1`. -/
def percentile75 (values : List ℚ) : ℚ :=
  if values = [] then 1
  else
    let sorted := values.insertionSort (· ≤ ·)
    let v := sorted.getD (3 * (sorted.length - 1) / 4) 0
    if v = 0 then 1 else v

/-- `q75[key] = percentile75(arr) || 1` where `arr` collects field `k` of
every defaulted row. -/
def q75 (rows : List SafeRow) (k : MetricKey) : ℚ :=
  let p := percentile75 (rows.map (value k))
  if p = 0 then 1 else p

/-- The comparator `a.date.localeCompare(b.date) <= 0`: code-point
lexicographic "less or equal" on character lists (see the header note). -/
def dateLeb : List Char → List Char → Bool
  | [], _ => true
  | _ :: _, [] => false
  | c :: cs, d :: ds => if c = d then dateLeb cs ds else decide (c < d)

/-- The comparator as a relation on defaulted rows. -/
def rowLe (a b : SafeRow) : Prop := dateLeb a.date.data b.date.data = true

instance : DecidableRel rowLe :=
  fun a b => instDecidableEqBool (dateLeb a.date.data b.date.data) true

/-- `safeRows.sort((a, b) => a.date.localeCompare(b.date))`, modelled as the
stable insertion sort by lexicographic date order (see the header note). -/
def sortRows (rs : List SafeRow) : List SafeRow :=
  rs.insertionSort rowLe

/-- The score accumulation loop: `score += weights[key] * (v / (q75[key] || 1))`
over `metricsKeys` in order, starting from `0`. -/
def score (den : MetricKey → ℚ) (r : SafeRow) : ℚ :=
  metricsKeys.foldl
    (fun acc k => acc + weight k * (value k r / (if den k = 0 then 1 else den k))) 0

/-- `r.date.replace(" ", "T")`: JavaScript `replace` with a string pattern
rewrites only the first occurrence. -/
def replaceFirstSpace : List Char → List Char
  | [] => []
  | c :: cs => if c = spaceChar then 'T' :: cs else c :: replaceFirstSpace cs

/-- `r.date.replace(" ", "T") + "Z"`. -/
def decorate (s : String) : String :=
  ⟨replaceFirstSpace s.data ++ ['Z']⟩

/-- The body of the final `.map`: one `HeartbeatPoint` from one defaulted row,
given the per-field denominators. -/
def mkPoint (den : MetricKey → ℚ) (r : SafeRow) : HeartbeatPoint :=
  { timestamp := decorate r.date
    intensity := 100 * score den r / totalWeight
    metrics :=
      { orders := r.orders
        shipping_labels := r.shipping_labels
        total_packers := r.total_packers
        total_pickers := r.total_pickers
        total_warehouses_packers := r.total_warehouses_packers
        total_warehouses_pickers := r.total_warehouses_pickers
        active_countries := r.active_countries } }

/-- `computeHeartbeat` from `route.ts`: default the rows, compute the seven
`q75` denominators from the defaulted rows, sort by date, and map each row to
its point. -/
def computeHeartbeat (rows : List MetricsRow) : List HeartbeatPoint :=
  (sortRows (rows.map safeRow)).map (mkPoint (q75 (rows.map safeRow)))

/-- First record of the worked example in the spec: date `"2025-01-01"`,
`orders = 10`, every other field absent (hence defaulted to 0). -/
def rowJan1 : MetricsRow := { date := "2025-01-01", orders := some 10 }

/-- Second record of the worked example: date `"2025-01-02"`, `orders = 20`. -/
def rowJan2 : MetricsRow := { date := "2025-01-02", orders := some 20 }

/-- Four records whose `orders` values are `2, 1, 4, 3`: the sorted values are
`[1,2,3,4]` and the spec expects the chosen q75 to be `3`. -/
def rowsQ : List MetricsRow :=
  [{ date := "2025-11-01", orders := some 2 },
   { date := "2025-11-02", orders := some 1 },
   { date := "2025-11-03", orders := some 4 },
   { date := "2025-11-04", orders := some 3 }]

/-- A single record every one of whose seven fields is `5`; as the only
record, each of its fields equals its own q75 denominator. -/
def rowAll5 : MetricsRow :=
  { date := "2025-11-28", orders := some 5, shipping_labels := some 5,
    total_packers := some 5, total_warehouses_packers := some 5,
    total_pickers := some 5, total_warehouses_pickers := some 5,
    active_countries := some 5 }

/-- A record with every metric field absent. -/
def rowNone : MetricsRow := { date := "2025-11-29" }

/-- A record with a space in its date string (hourly granularity), used to
exercise the timestamp decoration. -/
def rowHour : MetricsRow := { date := "2025-11-28 05:00:00", orders := some 1 }

/-- Explicitly writing `0` into every absent field of a raw record (the
identity on what `computeHeartbeat` can observe). -/
def fill0 (r : MetricsRow) : MetricsRow :=
  { date := r.date
    orders := some (r.orders.getD 0)
    shipping_labels := some (r.shipping_labels.getD 0)
    total_packers := some (r.total_packers.getD 0)
    total_warehouses_packers := some (r.total_warehouses_packers.getD 0)
    total_pickers := some (r.total_pickers.getD 0)
    total_warehouses_pickers := some (r.total_warehouses_pickers.getD 0)
    active_countries := some (r.active_countries.getD 0) }

/-- A freshly allocated defaulted row, viewed as a heap cell (the object
`{ ...r, orders: ..., ... }` has all seven fields present). -/
def embedSafe (s : SafeRow) : MetricsRow :=
  { date := s.date, orders := some s.orders,
    shipping_labels := some s.shipping_labels,
    total_packers := some s.total_packers,
    total_warehouses_packers := some s.total_warehouses_packers,
    total_pickers := some s.total_pickers,
    total_warehouses_pickers := some s.total_warehouses_pickers,
    active_countries := some s.active_countries }

/-- Placeholder value for dereferencing an out-of-range heap index. -/
def blankRow : MetricsRow := { date := "" }

/-- Heap-level rendering of `computeHeartbeat` for the frame property: the
heap is a list of row cells and the input is a list of references (indices)
into it.  `rows.map(...)` allocates fresh cells (appended at the end of the
heap) holding the defaulted shallow copies, and the in-place `.sort` and the
output `.map` touch only those fresh cells.  The call returns the final heap
together with the output points. -/
def computeHeartbeatAlloc (heap : List MetricsRow) (input : List Nat) :
    List MetricsRow × List HeartbeatPoint :=
  let safeRows := input.map fun i => safeRow (heap.getD i blankRow)
  (heap ++ safeRows.map embedSafe,
   (sortRows safeRows).map (mkPoint (q75 safeRows)))

/-- A parsed CSV row: a partial map from column name to cell text
(`undefined` columns are `none`). -/
abbrev RawRow : Type := String → Option String

/-- `rawDate?.trim()` followed by `if (!dateStr) continue`: `none` when the
cell is absent or trims to the empty string, otherwise the trimmed text. -/
def trimmedKey (o : Option String) : Option String :=
  match o with
  | none => none
  | some s => if s.trim = "" then none else some s.trim

/-- The `Map<string, MetricsRow>` of `GET`, as an association list in
insertion order. -/
abbrev MapRows : Type := List (String × MetricsRow)

/-- `ensureRow(map, dateStr)` followed by field assignments `f` on the
returned row: update the unique binding of the key in place, or append a
fresh `{ date: dateStr }` (with `f` applied) at the end. -/
def updateRow (d : String) (f : MetricsRow → MetricsRow) : MapRows → MapRows
  | [] => [(d, f { date := d })]
  | (k, v) :: rest =>
    if k = d then (k, f v) :: rest else (k, v) :: updateRow d f rest

/-- One iteration of the `orders.csv` loop.  `num` models
`x => Number.isFinite(Number(x)) ? Number(x) : none`; an absent cell gives
`Number(undefined) = NaN`, hence `none`. -/
def ordersStep (num : String → Option ℚ) (m : MapRows) (row : RawRow) :
    MapRows :=
  match trimmedKey ((row "date_utc").orElse fun _ => row "date") with
  | none => m
  | some d => updateRow d (fun t =>
      match (row "orders").bind num with
      | some q => { t with orders := some q }
      | none => t) m

/-- One iteration of the `shipping_labels.csv` loop. -/
def labelsStep (num : String → Option ℚ) (m : MapRows) (row : RawRow) :
    MapRows :=
  match trimmedKey (row "date") with
  | none => m
  | some d => updateRow d (fun t =>
      match (row "shipping_labels").bind num with
      | some q => { t with shipping_labels := some q }
      | none => t) m

/-- One iteration of the `total_packers.csv` loop (two fields per row). -/
def packersStep (num : String → Option ℚ) (m : MapRows) (row : RawRow) :
    MapRows :=
  match trimmedKey (row "date") with
  | none => m
  | some d => updateRow d (fun t =>
      let t1 := match (row "total_packers").bind num with
        | some q => { t with total_packers := some q }
        | none => t
      match (row "total_warehouses").bind num with
      | some q => { t1 with total_warehouses_packers := some q }
      | none => t1) m

/-- One iteration of the `total_pickers.csv` loop (two fields per row). -/
def pickersStep (num : String → Option ℚ) (m : MapRows) (row : RawRow) :
    MapRows :=
  match trimmedKey (row "date") with
  | none => m
  | some d => updateRow d (fun t =>
      let t1 := match (row "total_pickers").bind num with
        | some q => { t with total_pickers := some q }
        | none => t
      match (row "total_warehouses").bind num with
      | some q => { t1 with total_warehouses_pickers := some q }
      | none => t1) m

/-- The `Map<string, Set<string>>` of distinct shipping countries per date,
as an association list of insertion-ordered distinct-member lists. -/
abbrev CountryMap : Type := List (String × List String)

/-- `Set.add` on the per-date country set (`ensure` + insert-if-new). -/
def addCountry (d c : String) : CountryMap → CountryMap
  | [] => [(d, [c])]
  | (k, set) :: rest =>
    if k = d then (k, if c ∈ set then set else set ++ [c]) :: rest
    else (k, set) :: addCountry d c rest

/-- One iteration of the `shippings_by_country.csv` loop. -/
def countryStep (cm : CountryMap) (row : RawRow) : CountryMap :=
  match trimmedKey (row "date"), trimmedKey (row "shipping_country") with
  | some d, some c => addCountry d c cm
  | _, _ => cm

/-- The loop writing `active_countries = set.size` for every entry of the
country map. -/
def countriesApply (m : MapRows) (cm : CountryMap) : MapRows :=
  cm.foldl (fun m kv =>
    updateRow kv.1
      (fun t => { t with active_countries := some (kv.2.length : ℚ) }) m) m

/-- The pure core of `GET`: join the five parsed CSV feeds into one
`MetricsRow` per date key and drain the map into a list
(`Array.from(map.values())`). -/
def buildRows (num : String → Option ℚ)
    (ordersCsv labelsCsv packersCsv pickersCsv byCountryCsv : List RawRow) :
    List MetricsRow :=
  let m1 := ordersCsv.foldl (ordersStep num) []
  let m2 := labelsCsv.foldl (labelsStep num) m1
  let m3 := packersCsv.foldl (packersStep num) m2
  let m4 := pickersCsv.foldl (pickersStep num) m3
  let cm := byCountryCsv.foldl countryStep []
  (countriesApply m4 cm).map (fun kv => kv.2)

/-- The body of `GET` after the fetches: empty row set short-circuits to an
empty JSON array, otherwise the heartbeat is computed. -/
def heartbeatGET (num : String → Option ℚ)
    (ordersCsv labelsCsv packersCsv pickersCsv byCountryCsv : List RawRow) :
    List HeartbeatPoint :=
  let rows := buildRows num ordersCsv labelsCsv packersCsv pickersCsv byCountryCsv
  if rows = [] then [] else computeHeartbeat rows

/-- Invariant of the date-keyed map: keys are distinct and every row carries
its key as its `date`. -/
abbrev MapInv (m : MapRows) : Prop :=
  (m.map Prod.fst).Nodup ∧ ∀ kv ∈ m, (kv.2).date = kv.1

end Heartbeat

namespace Heartbeat

theorem dateLeb_total : ∀ s t : List Char, dateLeb s t = true ∨ dateLeb t s = true
  | [], _ => Or.inl rfl
  | _ :: _, [] => Or.inr rfl
  | c :: cs, d :: ds => by
    by_cases hcd : c = d
    · subst hcd
      simpa [dateLeb] using dateLeb_total cs ds
    · rcases lt_trichotomy c d with h | h | h
      · exact Or.inl (by simp [dateLeb, hcd, h])
      · exact absurd h hcd
      · exact Or.inr (by simp [dateLeb, Ne.symm hcd, h])

theorem dateLeb_trans :
    ∀ s t u : List Char, dateLeb s t = true → dateLeb t u = true →
      dateLeb s u = true
  | [], _, _, _, _ => rfl
  | _ :: _, [], _, h, _ => by simp [dateLeb] at h
  | _ :: _, _ :: _, [], _, h => by simp [dateLeb] at h
  | c :: cs, d :: ds, e :: es, h1, h2 => by
    by_cases hcd : c = d <;> by_cases hde : d = e
    · subst hcd; subst hde
      simp only [dateLeb, if_pos rfl] at h1 h2 ⊢
      exact dateLeb_trans cs ds es h1 h2
    · subst hcd
      simp only [dateLeb, if_pos rfl, if_neg hde, decide_eq_true_eq] at h1 h2 ⊢
      simp [if_neg hde, h2]
    · subst hde
      simp only [dateLeb, if_neg hcd, decide_eq_true_eq] at h1 ⊢
      simp [if_neg hcd, h1]
    · simp only [dateLeb, if_neg hcd, if_neg hde, decide_eq_true_eq] at h1 h2
      have hce : c < e := lt_trans h1 h2
      simp [dateLeb, ne_of_lt hce, hce]

theorem dateLeb_iff_lex :
    ∀ s t : List Char, dateLeb s t = true ↔ s = t ∨ List.Lex (· < ·) s t
  | [], [] => by simp [dateLeb]
  | [], _ :: _ => by simp [dateLeb, List.Lex.nil]
  | _ :: _, [] => by
    simp only [dateLeb, Bool.false_eq_true, false_iff]
    rintro (h | h)
    · cases h
    · exact List.Lex.not_nil_right _ _ h
  | c :: cs, d :: ds => by
    by_cases hcd : c = d
    · subst hcd
      rw [dateLeb, if_pos rfl, dateLeb_iff_lex cs ds]
      constructor
      · rintro (h | h)
        · exact Or.inl (by rw [h])
        · exact Or.inr (List.Lex.cons h)
      · rintro (h | h)
        · exact Or.inl (by injection h)
        · exact Or.inr (List.Lex.cons_iff.mp h)
    · rw [dateLeb, if_neg hcd]
      simp only [decide_eq_true_eq]
      constructor
      · intro h
        exact Or.inr (List.Lex.rel h)
      · rintro (h | h)
        · exact absurd (by injection h) hcd
        · cases h with
          | cons _ => exact absurd rfl hcd
          | rel h => exact h

theorem sortRows_sorted (rs : List SafeRow) : (sortRows rs).Pairwise rowLe := by
  haveI : IsTotal SafeRow rowLe := ⟨fun a b => dateLeb_total a.date.data b.date.data⟩
  haveI : IsTrans SafeRow rowLe :=
    ⟨fun a b c => dateLeb_trans a.date.data b.date.data c.date.data⟩
  exact List.sorted_insertionSort rowLe rs

theorem sortRows_perm (rs : List SafeRow) : (sortRows rs).Perm rs :=
  List.perm_insertionSort rowLe rs

theorem q75_ne_zero (rows : List SafeRow) (k : MetricKey) : q75 rows k ≠ 0 := by
  show (if percentile75 (rows.map (value k)) = 0 then (1 : ℚ)
    else percentile75 (rows.map (value k))) ≠ 0
  split_ifs with h
  · exact one_ne_zero
  · exact h

/-- C7: `computeHeartbeat` on the empty record sequence returns the empty
sequence (and, being a total function of its input, raises no error). -/
theorem computeHeartbeat_empty : computeHeartbeat [] = [] := rfl

/-- C5: the intensity divisor `totalWeight` is the fixed fold
`1.0 + 1.0 + 0.7 + 0.7 + 0.4 + 0.4 + 0.5` over the seven weights — a constant
of the program, independent of the input — and it equals `4.7 = 47/10`
exactly. -/
theorem totalWeight_eq :
    totalWeight = (1.0 : ℚ) + 1.0 + 0.7 + 0.7 + 0.4 + 0.4 + 0.5 ∧
    totalWeight = 47 / 10 := by
  constructor <;> norm_num [totalWeight, metricsKeys, weight]

/-- C1: on the two-record example (`orders = 10` on 2025-01-01, `orders = 20`
on 2025-01-02, all other fields absent) the chosen `q75` denominator for
`orders` is `sorted([10,20])[floor(0.75 * 1)] = 10`, every all-zero field gets
denominator `1`, and the returned intensities are exactly `100 * 1 / 4.7 =
1000/47 (≈ 21.28)` and `100 * 2 / 4.7 = 2000/47 (≈ 42.55)`. -/
theorem computeHeartbeat_two_record_example :
    (∀ k, q75 ([rowJan1, rowJan2].map safeRow) k =
      if k = MetricKey.orders then 10 else 1) ∧
    computeHeartbeat [rowJan1, rowJan2] =
      [{ timestamp := "2025-01-01Z"
         intensity := 1000 / 47
         metrics := { orders := 10, shipping_labels := 0, total_packers := 0,
                      total_pickers := 0, total_warehouses_packers := 0,
                      total_warehouses_pickers := 0, active_countries := 0 } },
       { timestamp := "2025-01-02Z"
         intensity := 2000 / 47
         metrics := { orders := 20, shipping_labels := 0, total_packers := 0,
                      total_pickers := 0, total_warehouses_packers := 0,
                      total_warehouses_pickers := 0, active_countries := 0 } }] := by
  refine ⟨fun k => by cases k <;> decide, ?_⟩
  have hq : ∀ k, q75 [(⟨"2025-01-01", 10, 0, 0, 0, 0, 0, 0⟩ : SafeRow),
      ⟨"2025-01-02", 20, 0, 0, 0, 0, 0, 0⟩] k =
      if k = MetricKey.orders then 10 else 1 := fun k => by cases k <;> decide
  have hs : sortRows [(⟨"2025-01-01", 10, 0, 0, 0, 0, 0, 0⟩ : SafeRow),
      ⟨"2025-01-02", 20, 0, 0, 0, 0, 0, 0⟩] =
      [⟨"2025-01-01", 10, 0, 0, 0, 0, 0, 0⟩,
       ⟨"2025-01-02", 20, 0, 0, 0, 0, 0, 0⟩] := by decide
  have hmap : List.map safeRow [rowJan1, rowJan2] =
      [⟨"2025-01-01", 10, 0, 0, 0, 0, 0, 0⟩,
       ⟨"2025-01-02", 20, 0, 0, 0, 0, 0, 0⟩] := by decide
  have ht1 : decorate "2025-01-01" = "2025-01-01Z" := by decide
  have ht2 : decorate "2025-01-02" = "2025-01-02Z" := by decide
  show (sortRows (List.map safeRow [rowJan1, rowJan2])).map
      (mkPoint (q75 (List.map safeRow [rowJan1, rowJan2]))) = _
  rw [hmap, hs]
  norm_num [List.map, mkPoint, score, metricsKeys, List.foldl, hq, value,
    totalWeight, weight, ht1, ht2, HeartbeatPoint.mk.injEq, Metrics.mk.injEq]

/-- C2: for a non-empty input and any of the seven metric fields, the `q75`
denominator is the entry at index `floor(0.75 * (n - 1))` of the ascending
sort of that field's values, with `1` substituted when that entry is zero;
in particular the denominator is never zero. -/
theorem q75_spec (rows : List MetricsRow) (h : rows ≠ []) (k : MetricKey) :
    ∃ s : List ℚ, s.Perm ((rows.map safeRow).map (value k)) ∧
      s.Sorted (· ≤ ·) ∧
      q75 (rows.map safeRow) k =
        (if s.getD (3 * (s.length - 1) / 4) 0 = 0 then 1
         else s.getD (3 * (s.length - 1) / 4) 0) ∧
      q75 (rows.map safeRow) k ≠ 0 := by
  have hv : (rows.map safeRow).map (value k) ≠ [] := by
    simpa [List.map_eq_nil_iff] using h
  refine ⟨((rows.map safeRow).map (value k)).insertionSort (· ≤ ·),
    List.perm_insertionSort _ _, List.sorted_insertionSort _ _, ?_,
    q75_ne_zero _ k⟩
  show (if percentile75 ((rows.map safeRow).map (value k)) = 0 then (1 : ℚ)
    else percentile75 ((rows.map safeRow).map (value k))) = _
  rw [percentile75, if_neg hv]
  simp only []
  split_ifs <;> rfl

/-- Witness for C2 at the spec's example: four records whose `orders` values
sort to `[1,2,3,4]`; the chosen q75 for `orders` is `sorted[floor(2.25)] = 3`. -/
theorem q75_spec_witness :
    rowsQ ≠ [] ∧ q75 (rowsQ.map safeRow) MetricKey.orders = 3 ∧
    (∃ s : List ℚ, s.Perm ((rowsQ.map safeRow).map (value MetricKey.orders)) ∧
      s.Sorted (· ≤ ·) ∧
      q75 (rowsQ.map safeRow) MetricKey.orders =
        (if s.getD (3 * (s.length - 1) / 4) 0 = 0 then 1
         else s.getD (3 * (s.length - 1) / 4) 0) ∧
      q75 (rowsQ.map safeRow) MetricKey.orders ≠ 0) :=
  ⟨by decide, by decide, q75_spec rowsQ (by decide) MetricKey.orders⟩

/-- C3: the output of `computeHeartbeat` follows its records in ascending
lexicographic order of their date strings: the output is the pointwise image
of a permutation `rs` of the (defaulted) input records whose consecutive date
strings are related by `date₁ = date₂` or the strict lexicographic order
`List.Lex (· < ·)` on their characters. -/
theorem computeHeartbeat_sorted_by_date (rows : List MetricsRow) :
    ∃ rs : List SafeRow,
      rs.Perm (rows.map safeRow) ∧
      rs.Pairwise (fun a b =>
        a.date.data = b.date.data ∨ List.Lex (· < ·) a.date.data b.date.data) ∧
      computeHeartbeat rows = rs.map (mkPoint (q75 (rows.map safeRow))) := by
  refine ⟨sortRows (rows.map safeRow), sortRows_perm _, ?_, rfl⟩
  exact (sortRows_sorted (rows.map safeRow)).imp
    (fun h => (dateLeb_iff_lex _ _).mp h)

/-- C4: a record whose seven field values all coincide with their q75
denominators is mapped to a point of intensity exactly `100`. -/
theorem intensity_at_q75 (rows : List MetricsRow) (r : MetricsRow)
    (hr : r ∈ rows)
    (h : ∀ k, value k (safeRow r) = q75 (rows.map safeRow) k) :
    ∃ p ∈ computeHeartbeat rows,
      p.timestamp = decorate r.date ∧ p.intensity = 100 := by
  have hmem : safeRow r ∈ sortRows (rows.map safeRow) :=
    (sortRows_perm _).mem_iff.mpr (List.mem_map_of_mem safeRow hr)
  refine ⟨mkPoint (q75 (rows.map safeRow)) (safeRow r),
    List.mem_map_of_mem _ hmem, rfl, ?_⟩
  show 100 * score (q75 (rows.map safeRow)) (safeRow r) / totalWeight = 100
  have hden : ∀ k, (if q75 (rows.map safeRow) k = 0 then (1 : ℚ)
      else q75 (rows.map safeRow) k) = q75 (rows.map safeRow) k :=
    fun k => if_neg (q75_ne_zero _ k)
  have hdiv : ∀ k, value k (safeRow r) / q75 (rows.map safeRow) k = 1 :=
    fun k => by rw [h k]; exact div_self (q75_ne_zero _ k)
  have hscore : score (q75 (rows.map safeRow)) (safeRow r) = totalWeight := by
    simp only [score, metricsKeys, List.foldl, hden, hdiv, mul_one, totalWeight,
      List.map]
  rw [hscore, mul_div_assoc,
    div_self (by norm_num [totalWeight, metricsKeys, weight, List.foldl] :
      totalWeight ≠ 0), mul_one]

/-- Witness for C4: the single all-fives record equals its own denominators
and scores exactly 100. -/
theorem intensity_at_q75_witness :
    rowAll5 ∈ [rowAll5] ∧
    (∀ k, value k (safeRow rowAll5) = q75 ([rowAll5].map safeRow) k) ∧
    (∃ p ∈ computeHeartbeat [rowAll5],
      p.timestamp = decorate rowAll5.date ∧ p.intensity = 100) :=
  ⟨by decide, fun k => by cases k <;> decide,
    intensity_at_q75 [rowAll5] rowAll5 (by decide)
      (fun k => by cases k <;> decide)⟩

/-- C6: an absent metric field is read as the value `0` (not excluded): a raw
record and the record with explicit zeros written into its absent fields are
indistinguishable to `computeHeartbeat` — in particular the zeros take part
in the percentile arrays — and the defaulted value of every absent field is
`0`. -/
theorem missing_fields_as_zero :
    (∀ rows : List MetricsRow,
      computeHeartbeat (rows.map fill0) = computeHeartbeat rows) ∧
    (∀ (r : MetricsRow) (k : MetricKey),
      optValue k r = none → value k (safeRow r) = 0) := by
  constructor
  · intro rows
    have hcomp : safeRow ∘ fill0 = safeRow := funext fun r => rfl
    show (sortRows ((rows.map fill0).map safeRow)).map
        (mkPoint (q75 ((rows.map fill0).map safeRow))) = _
    rw [List.map_map, hcomp]
    rfl
  · intro r k h
    cases k <;> simp_all [value, safeRow, optValue]

/-- Witness for C6: a record with `orders` absent reads `0` for it, and
writing the zeros explicitly leaves the output on the worked example
unchanged. -/
theorem missing_fields_as_zero_witness :
    optValue MetricKey.orders rowNone = none ∧
    value MetricKey.orders (safeRow rowNone) = 0 ∧
    computeHeartbeat ([rowJan1, rowNone].map fill0) =
      computeHeartbeat [rowJan1, rowNone] :=
  ⟨by decide,
    missing_fields_as_zero.2 rowNone MetricKey.orders (by decide),
    missing_fields_as_zero.1 [rowJan1, rowNone]⟩

theorem replaceFirstSpace_no_space :
    ∀ l : List Char, spaceChar ∉ l → replaceFirstSpace l = l
  | [], _ => rfl
  | c :: cs, h => by
    have hc : ¬c = spaceChar := fun hc => h (hc ▸ List.mem_cons_self c cs)
    have hcs : spaceChar ∉ cs := fun hm => h (List.mem_cons_of_mem c hm)
    simp [replaceFirstSpace, hc, replaceFirstSpace_no_space cs hcs]

theorem replaceFirstSpace_split :
    ∀ pre post : List Char, spaceChar ∉ pre →
      replaceFirstSpace (pre ++ spaceChar :: post) = pre ++ 'T' :: post
  | [], post, _ => by simp [replaceFirstSpace]
  | c :: cs, post, h => by
    have hc : ¬c = spaceChar := fun hc => h (hc ▸ List.mem_cons_self c cs)
    have hcs : spaceChar ∉ cs := fun hm => h (List.mem_cons_of_mem c hm)
    simp [replaceFirstSpace, hc, replaceFirstSpace_split cs post hcs]

/-- C8: every output timestamp is its record's date string with the first
space (if any) replaced by `T` and a `Z` appended; all other characters are
untouched. -/
theorem timestamp_decoration (rows : List MetricsRow) (p : HeartbeatPoint)
    (hp : p ∈ computeHeartbeat rows) :
    ∃ r ∈ rows, p.timestamp = decorate r.date ∧
      (spaceChar ∉ r.date.data → p.timestamp = r.date ++ "Z") ∧
      (∀ pre post : List Char,
        r.date.data = pre ++ spaceChar :: post → spaceChar ∉ pre →
        p.timestamp.data = pre ++ 'T' :: (post ++ ['Z'])) := by
  obtain ⟨s, hs, rfl⟩ := List.mem_map.mp hp
  have hs' : s ∈ rows.map safeRow := (sortRows_perm _).subset hs
  obtain ⟨r, hr, rfl⟩ := List.mem_map.mp hs'
  refine ⟨r, hr, rfl, ?_, ?_⟩
  · intro h
    exact congrArg String.mk (by
      show replaceFirstSpace r.date.data ++ ['Z'] = r.date.data ++ ['Z']
      rw [replaceFirstSpace_no_space r.date.data h])
  · intro pre post hsplit hnp
    show replaceFirstSpace r.date.data ++ ['Z'] = _
    rw [hsplit, replaceFirstSpace_split pre post hnp, List.append_assoc]
    rfl

/-- Witness for C8: the single hourly record `"2025-11-28 05:00:00"` yields
the timestamp `"2025-11-28T05:00:00Z"`. -/
theorem timestamp_decoration_witness :
    (mkPoint (q75 ([rowHour].map safeRow)) (safeRow rowHour)
        ∈ computeHeartbeat [rowHour]) ∧
    (∃ r ∈ [rowHour],
      (mkPoint (q75 ([rowHour].map safeRow)) (safeRow rowHour)).timestamp =
        decorate r.date ∧
      (spaceChar ∉ r.date.data →
        (mkPoint (q75 ([rowHour].map safeRow)) (safeRow rowHour)).timestamp =
          r.date ++ "Z") ∧
      (∀ pre post : List Char,
        r.date.data = pre ++ spaceChar :: post → spaceChar ∉ pre →
        (mkPoint (q75 ([rowHour].map safeRow)) (safeRow rowHour)).timestamp.data =
          pre ++ 'T' :: (post ++ ['Z']))) :=
  ⟨List.mem_map_of_mem _ (by decide),
    timestamp_decoration [rowHour] _ (List.mem_map_of_mem _ (by decide))⟩

/-- C9: `computeHeartbeat` is pure.  At the heap level, the cells reachable
from the input references are unchanged by the call (the defaulting `.map`
allocates fresh copies and the in-place `.sort` permutes only the fresh
array), the output is exactly the pure function of the dereferenced input
values, and equal inputs give equal outputs. -/
theorem computeHeartbeat_pure (heap : List MetricsRow) (input : List Nat) :
    (computeHeartbeatAlloc heap input).1.take heap.length = heap ∧
    (computeHeartbeatAlloc heap input).2 =
      computeHeartbeat (input.map fun i => heap.getD i blankRow) ∧
    ∀ rows1 rows2 : List MetricsRow, rows1 = rows2 →
      computeHeartbeat rows1 = computeHeartbeat rows2 := by
  refine ⟨List.take_left _ _, ?_, fun _ _ h => h ▸ rfl⟩
  show (sortRows _).map _ = (sortRows _).map _
  rw [List.map_map]
  rfl

/-- Witness for C9 on a one-record heap. -/
theorem computeHeartbeat_pure_witness :
    (computeHeartbeatAlloc [rowJan1] [0]).1.take 1 = [rowJan1] ∧
    computeHeartbeat [rowJan1] = computeHeartbeat [rowJan1] :=
  ⟨(computeHeartbeat_pure [rowJan1] [0]).1,
    (computeHeartbeat_pure [rowJan1] [0]).2.2 [rowJan1] [rowJan1] rfl⟩

theorem updateRow_fst (d : String) (f : MetricsRow → MetricsRow) :
    ∀ m : MapRows, (updateRow d f m).map Prod.fst =
      if d ∈ m.map Prod.fst then m.map Prod.fst
      else m.map Prod.fst ++ [d]
  | [] => by simp [updateRow]
  | (k, v) :: rest => by
    by_cases hk : k = d
    · subst hk
      simp [updateRow]
    · have hdk : ¬d = k := fun h => hk h.symm
      simp only [updateRow, if_neg hk, List.map_cons, updateRow_fst d f rest,
        List.mem_cons, hdk, false_or]
      by_cases hd : d ∈ rest.map Prod.fst <;> simp [hd]

theorem updateRow_inv (d : String) (f : MetricsRow → MetricsRow)
    (hf : ∀ t, (f t).date = t.date) :
    ∀ m : MapRows, MapInv m → MapInv (updateRow d f m)
  | [], _ => by
    refine ⟨by simp [updateRow], ?_⟩
    intro kv hkv
    simp only [updateRow, List.mem_singleton] at hkv
    subst hkv
    exact hf _
  | (k, v) :: rest, hinv => by
    obtain ⟨hnd, hdate⟩ := hinv
    rw [List.map_cons, List.nodup_cons] at hnd
    by_cases hk : k = d
    · subst hk
      refine ⟨?_, ?_⟩
      · simpa [updateRow] using hnd
      · intro kv hkv
        rw [updateRow, if_pos rfl] at hkv
        rcases List.mem_cons.mp hkv with rfl | hkv
        · exact (hf v).trans (hdate (k, v) (List.mem_cons_self _ _))
        · exact hdate kv (List.mem_cons_of_mem _ hkv)
    · have hrest : MapInv rest :=
        ⟨hnd.2, fun kv h => hdate kv (List.mem_cons_of_mem _ h)⟩
      have ih := updateRow_inv d f hf rest hrest
      rw [updateRow, if_neg hk]
      refine ⟨?_, ?_⟩
      · rw [List.map_cons, List.nodup_cons]
        refine ⟨?_, ih.1⟩
        rw [updateRow_fst d f rest]
        by_cases hd : d ∈ rest.map Prod.fst
        · rw [if_pos hd]; exact hnd.1
        · rw [if_neg hd]
          simp only [List.mem_append, List.mem_singleton]
          rintro (h | h)
          · exact hnd.1 h
          · exact hk h
      · intro kv hkv
        rcases List.mem_cons.mp hkv with rfl | hkv
        · exact hdate (k, v) (List.mem_cons_self _ _)
        · exact ih.2 kv hkv

theorem foldl_mapInv {β : Type} (step : MapRows → β → MapRows)
    (hstep : ∀ m b, MapInv m → MapInv (step m b)) :
    ∀ (l : List β) (m : MapRows), MapInv m → MapInv (l.foldl step m)
  | [], _, h => h
  | b :: l, m, h => foldl_mapInv step hstep l (step m b) (hstep m b h)

theorem ordersStep_inv (num : String → Option ℚ) (m : MapRows) (row : RawRow)
    (h : MapInv m) : MapInv (ordersStep num m row) := by
  cases htk : trimmedKey ((row "date_utc").orElse fun _ => row "date") with
  | none => simpa [ordersStep, htk] using h
  | some d =>
    simp only [ordersStep, htk]
    exact updateRow_inv d _ (fun t => by cases (row "orders").bind num <;> rfl) m h

theorem labelsStep_inv (num : String → Option ℚ) (m : MapRows) (row : RawRow)
    (h : MapInv m) : MapInv (labelsStep num m row) := by
  cases htk : trimmedKey (row "date") with
  | none => simpa [labelsStep, htk] using h
  | some d =>
    simp only [labelsStep, htk]
    exact updateRow_inv d _
      (fun t => by cases (row "shipping_labels").bind num <;> rfl) m h

theorem packersStep_inv (num : String → Option ℚ) (m : MapRows) (row : RawRow)
    (h : MapInv m) : MapInv (packersStep num m row) := by
  cases htk : trimmedKey (row "date") with
  | none => simpa [packersStep, htk] using h
  | some d =>
    simp only [packersStep, htk]
    exact updateRow_inv d _
      (fun t => by
        cases (row "total_packers").bind num <;>
          cases (row "total_warehouses").bind num <;> rfl) m h

theorem pickersStep_inv (num : String → Option ℚ) (m : MapRows) (row : RawRow)
    (h : MapInv m) : MapInv (pickersStep num m row) := by
  cases htk : trimmedKey (row "date") with
  | none => simpa [pickersStep, htk] using h
  | some d =>
    simp only [pickersStep, htk]
    exact updateRow_inv d _
      (fun t => by
        cases (row "total_pickers").bind num <;>
          cases (row "total_warehouses").bind num <;> rfl) m h

theorem countriesApply_inv (m : MapRows) (cm : CountryMap) (h : MapInv m) :
    MapInv (countriesApply m cm) :=
  foldl_mapInv _
    (fun m kv h => updateRow_inv kv.1
      (fun t => { t with active_countries := some (kv.2.length : ℚ) })
      (fun _ => rfl) m h) cm m h

theorem computeHeartbeat_length (rows : List MetricsRow) :
    (computeHeartbeat rows).length = rows.length := by
  simp [computeHeartbeat, sortRows, List.length_insertionSort]

/-- C10: the date-keyed join of `GET` produces at most one `MetricsRow` per
distinct date string (the drained rows have pairwise-distinct dates), and the
response contains exactly one `HeartbeatPoint` per such row. -/
theorem heartbeatGET_one_point_per_date (num : String → Option ℚ)
    (ordersCsv labelsCsv packersCsv pickersCsv byCountryCsv : List RawRow) :
    ((buildRows num ordersCsv labelsCsv packersCsv pickersCsv byCountryCsv).map
      MetricsRow.date).Nodup ∧
    (heartbeatGET num ordersCsv labelsCsv packersCsv pickersCsv
      byCountryCsv).length =
      (buildRows num ordersCsv labelsCsv packersCsv pickersCsv
        byCountryCsv).length := by
  have h0 : MapInv ([] : MapRows) := ⟨List.nodup_nil, by simp⟩
  have h1 := foldl_mapInv _ (ordersStep_inv num) ordersCsv [] h0
  have h2 := foldl_mapInv _ (labelsStep_inv num) labelsCsv _ h1
  have h3 := foldl_mapInv _ (packersStep_inv num) packersCsv _ h2
  have h4 := foldl_mapInv _ (pickersStep_inv num) pickersCsv _ h3
  have h5 := countriesApply_inv _ (byCountryCsv.foldl countryStep []) h4
  have hmap : ∀ m : MapRows, MapInv m →
      ((m.map (fun kv => kv.2)).map MetricsRow.date).Nodup := by
    intro m hm
    rw [List.map_map]
    have hdates : m.map (MetricsRow.date ∘ fun kv => kv.2) = m.map Prod.fst :=
      List.map_congr_left (fun kv h => hm.2 kv h)
    rw [hdates]
    exact hm.1
  constructor
  · exact hmap _ h5
  · by_cases hb : buildRows num ordersCsv labelsCsv packersCsv pickersCsv
        byCountryCsv = []
    · simp [heartbeatGET, hb]
    · simp only [heartbeatGET, if_neg hb]
      exact computeHeartbeat_length _

end Heartbeat
